import Mathlib

/-!
Shallow embedding of the claw-browser-automation runtime
(selector strategy resolution, the action retry engine, the handle
registry, the browser pool recovery path, the action trace and the
action log sanitizer), together with proofs about the embedded code.

Browser I/O (Playwright locators, wall-clock waits) is modelled by
explicitly threaded environments: a `WaitEnv` answers each
`locator.first().waitFor(...)` call with a success flag and the wall
time the call consumed, and clocks advance by those amounts.
-/

namespace Claw

/-! ## Selector strategies (src/selectors/strategy.ts) -/

/-- Embedding of the `SelectorStrategy` union type.  `textExact` models the
optional `exact` flag of the `text` variant. -/
inductive SelectorStrategy
  | aria (role name : String)
  | text (text : String) (exact : Option Bool)
  | label (text : String)
  | testid (id : String)
  | css (selector : String)
  | xpath (expression : String)
deriving DecidableEq, Repr

/-- The `.type` discriminant string of a strategy object. -/
def strategyType : SelectorStrategy → String
  | .aria _ _ => "aria"
  | .text _ _ => "text"
  | .label _ => "label"
  | .testid _ => "testid"
  | .css _ => "css"
  | .xpath _ => "xpath"

/-- Embedding of `Selector = string | SelectorStrategy | SelectorStrategy[]`. -/
inductive Selector
  | str (s : String)
  | single (st : SelectorStrategy)
  | chain (l : List SelectorStrategy)

/-- Embedding of `SelectorWaitState`. -/
inductive SelectorWaitState
  | visible | hidden | attached | detached
deriving DecidableEq, Repr

/-- Embedding of `SelectorResolution`.  The `locator` field of the source is
an opaque Playwright handle fully determined by the winning strategy
(`resolveOne` is a pure dispatch on the strategy), so the embedding keeps the
strategy and drops the opaque handle. -/
structure SelectorResolution where
  strategy : SelectorStrategy
  strategyIndex : Nat
  resolutionMs : Int
  chainLength : Nat
deriving DecidableEq, Repr

/-- Embedding of a thrown `BrowserAutomationError`: `code`, `message` and
`recoveryHint` as carried by the error hierarchy in src/errors.ts. -/
structure ResolveError where
  code : String
  message : String
  recoveryHint : String
deriving DecidableEq, Repr

/-- `new TargetNotFoundError(message, recoveryHint?)` with the default hint. -/
def targetNotFoundError (message : String) (hint : Option String := none) : ResolveError :=
  { code := "TARGET_NOT_FOUND", message,
    recoveryHint :=
      hint.getD "Verify the selector is correct and the element exists on the page." }

/-- Environment answering `locator.first().waitFor({state, timeout})` calls.
`waitFor now strategy state capMs` returns whether the wait succeeded and the
wall time (ms) the call consumed; the page may answer differently at different
clock values `now`. -/
structure WaitEnv where
  waitFor : Nat → SelectorStrategy → SelectorWaitState → Nat → Bool × Nat

/-- The probing loop of `resolveWithConfidence` for an array selector with a
`visible`/`attached` wait state: walk the chain left to right; before each
strategy compute `remaining = deadline - now` and stop when it is exhausted;
otherwise wait on the strategy with timeout `min(remaining, 2000)`; a
successful wait returns the resolution, a failed one advances the clock and
moves to the next strategy. -/
def resolveLoop (env : WaitEnv) (state : SelectorWaitState) (deadline start : Nat) :
    List SelectorStrategy → Nat → Nat → Nat → Option SelectorResolution
  | [], _, _, _ => none
  | s :: rest, i, now, len =>
    if deadline ≤ now then
      none
    else
      let cap := min (deadline - now) 2000
      match env.waitFor now s state cap with
      | (true, elapsed) =>
          some { strategy := s, strategyIndex := i,
                 resolutionMs := ((now + elapsed : Nat) : Int) - (start : Int),
                 chainLength := len }
      | (false, elapsed) =>
          resolveLoop env state deadline start rest (i + 1) (now + elapsed) len

/-- Embedding of `resolveWithConfidence(page, selector, state, timeoutMs)`.
`now0` is the clock value at entry (`performance.now()` / `Date.now()`,
identified on one monotone integer-millisecond clock; `Math.round` is the
identity on it).  Strings and single strategies resolve immediately; an empty
chain throws `TargetNotFoundError`; `hidden`/`detached` return the first
strategy without probing; otherwise the probing loop runs against the budget
`deadline = now0 + timeoutMs`. -/
def resolveWithConfidence (env : WaitEnv) (selector : Selector)
    (state : SelectorWaitState) (timeoutMs : Nat) (now0 : Nat) :
    Except ResolveError SelectorResolution :=
  match selector with
  | .str s =>
      .ok { strategy := .css s, strategyIndex := 0, resolutionMs := 0, chainLength := 1 }
  | .single st =>
      .ok { strategy := st, strategyIndex := 0, resolutionMs := 0, chainLength := 1 }
  | .chain l =>
    if l.length = 0 then
      .error (targetNotFoundError "empty selector strategy array")
    else if state = .hidden ∨ state = .detached then
      match l with
      | [] => .error (targetNotFoundError "empty selector strategy array")
      | first :: _ =>
          .ok { strategy := first, strategyIndex := 0, resolutionMs := 0,
                chainLength := l.length }
    else
      match resolveLoop env state (now0 + timeoutMs) now0 l 0 now0 l.length with
      | some r => .ok r
      | none =>
          .error (targetNotFoundError
            "no selector strategy matched within the timeout for the wait state"
            (some "Try a different selector strategy or increase the timeout."))

/-- The trace of the probing loop for the first `k` strategies of the chain
starting at clock `now`: each was attempted while budget remained, with its
wait capped at `min(deadline - now, 2000)`, and failed. -/
def triedAndFailedBefore (env : WaitEnv) (state : SelectorWaitState) (deadline : Nat) :
    List SelectorStrategy → Nat → Nat → Prop
  | _, _, 0 => True
  | [], _, Nat.succ _ => False
  | s :: rest, now, Nat.succ k =>
      now < deadline ∧
      (env.waitFor now s state (min (deadline - now) 2000)).1 = false ∧
      triedAndFailedBefore env state deadline rest
        (now + (env.waitFor now s state (min (deadline - now) 2000)).2) k

/-- The clock value reached after the first `k` (failed) strategy attempts. -/
def clockAfter (env : WaitEnv) (state : SelectorWaitState) (deadline : Nat) :
    List SelectorStrategy → Nat → Nat → Nat
  | _, now, 0 => now
  | [], now, Nat.succ _ => now
  | s :: rest, now, Nat.succ k =>
      clockAfter env state deadline rest
        (now + (env.waitFor now s state (min (deadline - now) 2000)).2) k

/-! ## Thrown JavaScript values (src/errors.ts) -/

/-- A value thrown or stored by the retry machinery: a
`BrowserAutomationError` (carrying `code`/`message`/`recoveryHint`), a plain
`Error` (only a message), or a bare string. -/
inductive ErrVal
  | autoErr (code message recoveryHint : String)
  | jsErr (message : String)
  | strVal (s : String)
deriving DecidableEq, Repr

/-- The `.message` of an error value (`String(err)` for a bare string). -/
def errMessage : ErrVal → String
  | .autoErr _ m _ => m
  | .jsErr m => m
  | .strVal s => s

/-- The test `err instanceof TargetNotFoundError`: in the error hierarchy of
src/errors.ts exactly the `TargetNotFoundError` subclass carries the code
`TARGET_NOT_FOUND`. -/
def isTargetNotFound : ErrVal → Bool
  | .autoErr code _ _ => code = "TARGET_NOT_FOUND"
  | _ => false

/-! ## rotateStrategies (src/actions/action.ts) -/

/-- Embedding of `rotateStrategies`: arrays of length at most one are left
unchanged, otherwise the head is shifted off and pushed to the tail. -/
def rotateStrategies {α : Type} (strategies : List α) : List α :=
  if strategies.length ≤ 1 then
    strategies
  else
    match strategies with
    | [] => []
    | first :: rest => rest ++ [first]

/-- Embedding of `handleRetryError`: when the caught error is a
`TargetNotFoundError` and a `_selectorStrategies` array is present, that
array is rotated in place; otherwise it is left untouched. -/
def handleRetryError {α : Type} (err : ErrVal) (strategies : List α) : List α :=
  if isTargetNotFound err then rotateStrategies strategies else strategies

/-- Environment used to witness the chain-resolution theorems: the first
strategy fails its wait (consuming 300 ms), every other strategy succeeds
after 5 ms. -/
def witnessEnv : WaitEnv :=
  { waitFor := fun _ strategy _ _ =>
      if strategy = SelectorStrategy.css "#missing" then (false, 300) else (true, 5) }

/-! ## The action retry engine (src/actions/action.ts) -/

/-- Embedding of `StructuredError`. -/
structure StructuredError where
  code : String
  message : String
  recoveryHint : String
deriving DecidableEq, Repr

/-- Embedding of `toStructuredError`: a `BrowserAutomationError` becomes a
structured object, a plain `Error` its message, anything else `String(err)`. -/
def toStructuredError : ErrVal → StructuredError ⊕ String
  | .autoErr code message hint => Sum.inl ⟨code, message, hint⟩
  | .jsErr message => Sum.inr message
  | .strVal s => Sum.inr s

/-- `new NavigationInterruptedError(message)` with the default recovery
hint from src/errors.ts. -/
def navigationInterruptedError (startUrl currentUrl : String) : ErrVal :=
  ErrVal.autoErr "NAVIGATION_INTERRUPTED"
    ("page navigated from " ++ startUrl ++ " to " ++ currentUrl ++ " during retry")
    "The page navigated away during the action. Wait for navigation to settle before retrying."

/-- The behaviour of one attempt of the wrapped action body (`runAttempt`):
success with data, a precondition/postcondition retry message, or a thrown
error. -/
inductive AttemptBehavior (T : Type)
  | success (data : T)
  | retryMsg (msg : String)
  | thrown (e : ErrVal)

/-- Environment for one `executeAction` run: the URL recorded at action start
(`ctx.page.url()`), the URL the navigation guard observes on attempt `k ≥ 1`,
and the behaviour of each attempt.  Backoff sleeps, popup dismissal and trace
recording are I/O without influence on the returned `ActionResult` fields
modelled here. -/
structure ActionEnv (T : Type) where
  startUrl : String
  urlAtRetry : Nat → String
  attempt : Nat → AttemptBehavior T

/-- Embedding of `checkNavigationGuard`: skipped on attempt 0; on later
attempts a changed `page.url()` yields a `NavigationInterruptedError`. -/
def checkNavigationGuard {T : Type} (attempt : Nat) (env : ActionEnv T) : Option ErrVal :=
  if attempt = 0 then
    none
  else if env.urlAtRetry attempt ≠ env.startUrl then
    some (navigationInterruptedError env.startUrl (env.urlAtRetry attempt))
  else
    none

/-- Embedding of `RetryLoopResult`. -/
inductive RetryLoopResult (T : Type)
  | success (data : T) (attempt : Nat)
  | exhausted (lastError : String) (lastCaught : Option ErrVal)

/-- The body of `retryLoop`, with the remaining number of loop iterations as
fuel (`maxRetries + 1` at entry): the navigation guard runs first; a thrown
error updates both `lastError` and `lastCaughtError`, a retry outcome only
`lastError` (the iteration resets `lastCaughtError` to `undefined`). -/
def retryLoopAux {T : Type} (env : ActionEnv T) :
    Nat → Nat → String → Option ErrVal → RetryLoopResult T
  | 0, _, lastError, lastCaught => .exhausted lastError lastCaught
  | Nat.succ fuel, attempt, lastErr, _ =>
    match checkNavigationGuard attempt env with
    | some navErr => .exhausted (errMessage navErr) (some navErr)
    | none =>
      match env.attempt attempt with
      | .success d => .success d attempt
      | .retryMsg m =>
          let _ := lastErr
          retryLoopAux env fuel (attempt + 1) m none
      | .thrown e => retryLoopAux env fuel (attempt + 1) (errMessage e) (some e)

/-- Embedding of `retryLoop(ctx, name, opts, fn, timeoutMs, maxRetries,
startUrl, popupDismisser)`: attempts `0 .. maxRetries`. -/
def retryLoop {T : Type} (env : ActionEnv T) (maxRetries : Nat) : RetryLoopResult T :=
  retryLoopAux env (maxRetries + 1) 0 "" none

/-- Embedding of `ActionResult`.  `durationMs` and `screenshot` are wall
clock and filesystem effects outside the embedding. -/
structure ActionResultM (T : Type) where
  ok : Bool
  data : Option T
  error : Option String
  structuredError : Option StructuredError
  retries : Nat
deriving Repr

/-- Embedding of `buildFailureResult`: structures
`lastCaughtError ?? lastError` and reports `retries: maxRetries`. -/
def buildFailureResult (T : Type) (lastError : String) (lastCaught : Option ErrVal)
    (maxRetries : Nat) : ActionResultM T :=
  let structured := toStructuredError (lastCaught.getD (ErrVal.strVal lastError))
  { ok := false, data := none, error := some lastError,
    structuredError := match structured with | Sum.inl s => some s | Sum.inr _ => none,
    retries := maxRetries }

/-- `const DEFAULT_RETRIES = 3`. -/
def DEFAULT_RETRIES : Nat := 3

/-- Embedding of `executeAction`: run the retry loop with
`opts.retries ?? DEFAULT_RETRIES`; a success reports the succeeding attempt
index as `retries`, an exhausted loop is turned into a failure result. -/
def executeActionM {T : Type} (env : ActionEnv T) (retriesOpt : Option Nat) :
    ActionResultM T :=
  let maxRetries := retriesOpt.getD DEFAULT_RETRIES
  match retryLoop env maxRetries with
  | .success d attempt =>
      { ok := true, data := some d, error := none, structuredError := none,
        retries := attempt }
  | .exhausted lastError lastCaught =>
      buildFailureResult T lastError lastCaught maxRetries

/-! ## Browser pool auto-recovery (src/pool/browser-pool.ts, src/session/session.ts) -/

/-- Embedding of the `BrowserSession` fields the pool reads.  The Playwright
context and page are opaque I/O handles and the logger is an effect, so only
`id`, `profile` and the health flag are carried. -/
structure BrowserSessionM where
  id : String
  profile : Option String
  healthy : Bool
deriving DecidableEq, Repr

/-- The `BrowserSession` constructor: `this.id = nanoid(12)` draws a fresh
random id — supplied here explicitly as `freshId` — and the session starts
healthy.  The constructor offers no way to pass an existing id. -/
def mkBrowserSession (freshId : String) (profile : Option String) : BrowserSessionM :=
  { id := freshId, profile := profile, healthy := true }

/-- The pool's `_sessions` map, keyed by session id (insertion ordered). -/
abbrev PoolSessions : Type := List (String × BrowserSessionM)

/-- Map lookup (`_sessions.get`). -/
def poolGet : PoolSessions → String → Option BrowserSessionM
  | [], _ => none
  | (k, v) :: rest, key => if k = key then some v else poolGet rest key

/-- Map delete (`_sessions.delete`). -/
def poolDelete : PoolSessions → String → PoolSessions
  | [], _ => []
  | (k, v) :: rest, key => if k = key then rest else (k, v) :: poolDelete rest key

/-- Embedding of `BrowserPool.getSession`. -/
def getSession (pool : PoolSessions) (sessionId : String) : Option BrowserSessionM :=
  poolGet pool sessionId

/-- Embedding of `BrowserPool._recoverUnhealthy`: bail out while shutting
down or when the failed session is no longer tracked; otherwise untrack and
close it, then (when relaunching the context succeeds) construct a
replacement `BrowserSession` — whose constructor draws the fresh id
`freshId` — and insert it under `replacement.id`.  Snapshot capture and
restore are I/O without effect on the `_sessions` map. -/
def recoverUnhealthy (pool : PoolSessions) (shuttingDown : Bool)
    (failed : BrowserSessionM) (freshId : String) (launchOk : Bool) : PoolSessions :=
  if shuttingDown then
    pool
  else if (poolGet pool failed.id).isNone then
    pool
  else
    let removed := poolDelete pool failed.id
    if launchOk then
      let replacement := mkBrowserSession freshId failed.profile
      removed ++ [(replacement.id, replacement)]
    else
      removed

/-- The scenario of the repository's integration test "should report zero
retries when retries are aborted by navigation guard": the wrapped body
navigates away and throws on attempt 0, so the navigation guard fires on
attempt 1 (the first retry) with `retries: 1` configured. -/
def navGuardTestEnv : ActionEnv Unit :=
  { startUrl := "about:blank",
    urlAtRetry := fun _ => "data:text/html,new page",
    attempt := fun _ => .thrown (.jsErr "first attempt failed after navigation") }

/-! ## Action log input sanitising (src/store/action-log.ts) -/

/-- A JSON-like JavaScript value as traversed by `sanitizeValue`: strings,
numbers, booleans, `null`/`undefined`, arrays, plain objects (ordered
key/value lists) and non-plain objects (class instances etc., carried
opaquely and passed through untouched by the sanitiser). -/
inductive JsVal
  | vstr (s : String)
  | vnum (n : Int)
  | vbool (b : Bool)
  | vnull
  | varr (elems : List JsVal)
  | vobj (fields : List (String × JsVal))
  | vopaque (tag : Nat)

/-- The `DEFAULT_SENSITIVE_KEYS` set. -/
def DEFAULT_SENSITIVE_KEYS : List String :=
  ["password", "passwd", "pass", "token", "auth", "authorization", "secret",
   "api_key", "apikey", "secret_key", "private_key", "access_token",
   "refresh_token", "client_secret", "id_token", "bearer", "session_id",
   "credit_card", "card_number", "cvv", "ssn", "pin"]

/-- The `TYPED_TEXT_KEYS` set. -/
def TYPED_TEXT_KEYS : List String := ["text", "value", "fields", "script"]

/-- The `ActionLog` configuration relevant to sanitising. -/
structure ActionLogCfg where
  redactSensitiveInput : Bool
  redactTypedText : Bool
  sensitiveInputKeys : List String
deriving Repr

/-- `toLowerCase` modelled characterwise: `Char.toLower` on each code
point. -/
def lowerStr (s : String) : String := String.mk (s.data.map Char.toLower)

/-- The `ActionLog` constructor: `redactSensitiveInput` defaults to true,
`redactTypedText` to false, and the sensitive-key set is the default list
plus the configured additions, lower-cased. -/
def mkActionLogCfg (redactSensitiveInput redactTypedText : Option Bool)
    (sensitiveInputKeys : Option (List String)) : ActionLogCfg :=
  { redactSensitiveInput := redactSensitiveInput.getD true,
    redactTypedText := redactTypedText.getD false,
    sensitiveInputKeys :=
      ((sensitiveInputKeys.map
        (fun extra => DEFAULT_SENSITIVE_KEYS ++ extra)).getD
          DEFAULT_SENSITIVE_KEYS).map (fun k => lowerStr k) }

/-- `ActionLog.isSensitiveKey`: membership of the lower-cased key in the
(lower-cased) sensitive-key set. -/
def isSensitiveKey (cfg : ActionLogCfg) (key : String) : Bool :=
  cfg.sensitiveInputKeys.contains (lowerStr key)

/-- `ActionLog.isTypedTextKey`. -/
def isTypedTextKey (key : String) : Bool :=
  TYPED_TEXT_KEYS.contains (lowerStr key)

mutual

/-- Embedding of `ActionLog.sanitizeValue`. -/
def sanitizeValue (cfg : ActionLogCfg) (value : JsVal) (key : String)
    (parentTypedText : Bool) : JsVal :=
  let typedText := parentTypedText || isTypedTextKey key
  if cfg.redactSensitiveInput && isSensitiveKey cfg key then
    JsVal.vstr "[REDACTED]"
  else
    match value with
    | JsVal.vstr s =>
        if cfg.redactTypedText && (typedText || isTypedTextKey key) then
          JsVal.vstr "[REDACTED]"
        else
          JsVal.vstr s
    | JsVal.vnum n => JsVal.vnum n
    | JsVal.vbool b => JsVal.vbool b
    | JsVal.vnull => JsVal.vnull
    | JsVal.varr elems =>
        JsVal.varr (sanitizeElems cfg elems key (typedText || parentTypedText))
    | JsVal.vobj fields =>
        JsVal.vobj (sanitizeFields cfg fields (typedText || parentTypedText))
    | JsVal.vopaque t => JsVal.vopaque t

/-- The `value.map(entry => sanitizeValue(entry, key, …))` arm for arrays. -/
def sanitizeElems (cfg : ActionLogCfg) (elems : List JsVal) (key : String)
    (typedText : Bool) : List JsVal :=
  match elems with
  | [] => []
  | v :: rest =>
      sanitizeValue cfg v key typedText :: sanitizeElems cfg rest key typedText

/-- Embedding of `ActionLog.sanitizeInput`'s field loop. -/
def sanitizeFields (cfg : ActionLogCfg) (fields : List (String × JsVal))
    (parentTypedText : Bool) : List (String × JsVal) :=
  match fields with
  | [] => []
  | (k, v) :: rest =>
      (k, sanitizeValue cfg v k parentTypedText) ::
        sanitizeFields cfg rest parentTypedText

end

/-- Embedding of `ActionLog.sanitizeInput` as called by `serializeInput`
before persisting (`parentTypedText` defaults to false). -/
def sanitizeInput (cfg : ActionLogCfg) (input : List (String × JsVal)) :
    List (String × JsVal) :=
  sanitizeFields cfg input false

mutual

/-- Every object field with a sensitive key, at any nesting depth reachable
through arrays and plain objects, holds the literal string
`"[REDACTED]"`. -/
def SensitiveRedacted (cfg : ActionLogCfg) : JsVal → Prop
  | JsVal.varr elems => SensitiveRedactedElems cfg elems
  | JsVal.vobj fields => SensitiveRedactedFields cfg fields
  | _ => True

/-- `SensitiveRedacted` over the elements of an array. -/
def SensitiveRedactedElems (cfg : ActionLogCfg) : List JsVal → Prop
  | [] => True
  | v :: rest => SensitiveRedacted cfg v ∧ SensitiveRedactedElems cfg rest

/-- `SensitiveRedacted` over the fields of a plain object. -/
def SensitiveRedactedFields (cfg : ActionLogCfg) : List (String × JsVal) → Prop
  | [] => True
  | (k, v) :: rest =>
      (isSensitiveKey cfg k = true → v = JsVal.vstr "[REDACTED]") ∧
      SensitiveRedacted cfg v ∧ SensitiveRedactedFields cfg rest

end

mutual

/-- The value contains no sensitive key at any nesting depth. -/
def NoSensitiveKeys (cfg : ActionLogCfg) : JsVal → Prop
  | JsVal.varr elems => NoSensitiveKeysElems cfg elems
  | JsVal.vobj fields => NoSensitiveKeysFields cfg fields
  | _ => True

/-- `NoSensitiveKeys` over the elements of an array. -/
def NoSensitiveKeysElems (cfg : ActionLogCfg) : List JsVal → Prop
  | [] => True
  | v :: rest => NoSensitiveKeys cfg v ∧ NoSensitiveKeysElems cfg rest

/-- `NoSensitiveKeys` over the fields of a plain object. -/
def NoSensitiveKeysFields (cfg : ActionLogCfg) : List (String × JsVal) → Prop
  | [] => True
  | (k, v) :: rest =>
      isSensitiveKey cfg k = false ∧
      NoSensitiveKeys cfg v ∧ NoSensitiveKeysFields cfg rest

end

/-! ## Action trace (src/observe/trace.ts) -/

/-- Embedding of `TraceEntry`.  The optional metadata fields
(`selectorResolved`, `eventsDispatched`, `waitsPerformed`,
`assertionsChecked`) are never read by the trace bookkeeping and are not
carried. -/
structure TraceEntryM where
  action : String
  selector : Option String
  timestamp : Nat
  durationMs : Nat
  ok : Bool
  error : Option String
  retries : Nat
deriving DecidableEq, Repr

/-- Embedding of the private `DurationSample`. -/
structure DurationSample where
  sessionId : String
  timestamp : Nat
  durationMs : Nat
deriving DecidableEq, Repr

/-- Association-list embedding of a JavaScript `Map` lookup (`Map.get`):
keys are unique and kept in insertion order. -/
def alistGet {β : Type} : List (String × β) → String → Option β
  | [], _ => none
  | (k, v) :: rest, key => if k = key then some v else alistGet rest key

/-- `Map.set`: replace the binding in place, or append a new one. -/
def alistSet {β : Type} : List (String × β) → String → β → List (String × β)
  | [], key, v => [(key, v)]
  | (k, w) :: rest, key, v =>
      if k = key then (k, v) :: rest else (k, w) :: alistSet rest key v

/-- `Map.delete`: drop the binding of the key. -/
def alistDelete {β : Type} : List (String × β) → String → List (String × β)
  | [], _ => []
  | (k, v) :: rest, key => if k = key then rest else (k, v) :: alistDelete rest key

/-- The private state of an `ActionTrace` instance. -/
structure ActionTraceState where
  entries : List (String × List TraceEntryM)
  allDurations : List DurationSample
  totalRetries : Int
  outcomeOk : Int
  outcomeFailed : Int
  actionCounts : List (String × Int)
  maxEntriesPerSession : Nat
  maxDurationSamples : Nat
deriving Repr

/-- The `ActionTrace` constructor: caps default to 2000 entries per session
and 5000 duration samples and are clamped below by 1 (`Math.max(1, …)`). -/
def actionTraceInit (maxEntriesPerSession maxDurationSamples : Option Nat) :
    ActionTraceState :=
  { entries := [], allDurations := [], totalRetries := 0, outcomeOk := 0,
    outcomeFailed := 0, actionCounts := [],
    maxEntriesPerSession := max 1 (maxEntriesPerSession.getD 2000),
    maxDurationSamples := max 1 (maxDurationSamples.getD 5000) }

/-- Embedding of `ActionTrace._adjustAggregate`: add `sign` times the
entry's contribution to the retries total and the outcome counter, and move
its per-action count, deleting counts that drop to zero or below. -/
def adjustAggregate (sign : Int) (entry : TraceEntryM) (st : ActionTraceState) :
    ActionTraceState :=
  let st1 := { st with totalRetries := st.totalRetries + sign * (entry.retries : Int) }
  let st2 :=
    if entry.ok then { st1 with outcomeOk := st1.outcomeOk + sign }
    else { st1 with outcomeFailed := st1.outcomeFailed + sign }
  let count := (alistGet st2.actionCounts entry.action).getD 0
  let nextCount := count + sign
  if nextCount ≤ 0 then
    { st2 with actionCounts := alistDelete st2.actionCounts entry.action }
  else
    { st2 with actionCounts := alistSet st2.actionCounts entry.action nextCount }

/-- Embedding of `ActionTrace._removeDuration`: `findIndex` plus
`splice(index, 1)` removes the first sample matching all three fields. -/
def removeDuration (sessionId : String) (timestamp durationMs : Nat) :
    List DurationSample → List DurationSample
  | [] => []
  | sample :: rest =>
      if sample.sessionId = sessionId ∧ sample.timestamp = timestamp ∧
          sample.durationMs = durationMs then
        rest
      else
        sample :: removeDuration sessionId timestamp durationMs rest

/-- One eviction step of `record`: remove the shifted entry's duration
sample and subtract its aggregate contribution. -/
def evictOne (sessionId : String) (removed : TraceEntryM) (st : ActionTraceState) :
    ActionTraceState :=
  adjustAggregate (-1) removed
    { st with
        allDurations :=
          removeDuration sessionId removed.timestamp removed.durationMs st.allDurations }

/-- The `while (entries.length > maxEntriesPerSession)` eviction loop of
`record`, returning the retained list and the adjusted state. -/
def evictLoop (maxE : Nat) (sessionId : String) :
    ActionTraceState → List TraceEntryM → List TraceEntryM × ActionTraceState
  | st, [] => ([], st)
  | st, e :: rest =>
      if maxE < (e :: rest).length then
        evictLoop maxE sessionId (evictOne sessionId e st) rest
      else
        (e :: rest, st)

/-- Embedding of `ActionTrace.record`: push the entry onto the session's
list, evict oldest entries while over the cap (adjusting aggregates), then
add the new entry's duration sample (shifting the oldest sample when over
the sample cap) and its aggregate contributions. -/
def record (st : ActionTraceState) (sessionId : String) (entry : TraceEntryM) :
    ActionTraceState :=
  let pushed := (alistGet st.entries sessionId).getD [] ++ [entry]
  let evicted := evictLoop st.maxEntriesPerSession sessionId st pushed
  let st1 := evicted.2
  let st2 := { st1 with entries := alistSet st1.entries sessionId evicted.1 }
  let withSample :=
    st2.allDurations ++ [⟨sessionId, entry.timestamp, entry.durationMs⟩]
  let st3 :=
    { st2 with
        allDurations :=
          if st2.maxDurationSamples < withSample.length then withSample.tail
          else withSample }
  let st4 := { st3 with totalRetries := st3.totalRetries + (entry.retries : Int) }
  let st5 :=
    if entry.ok then { st4 with outcomeOk := st4.outcomeOk + 1 }
    else { st4 with outcomeFailed := st4.outcomeFailed + 1 }
  { st5 with
      actionCounts :=
        alistSet st5.actionCounts entry.action
          (((alistGet st5.actionCounts entry.action).getD 0) + 1) }

/-- Embedding of `ActionTrace.getSessionTrace` (the source returns a copy of
the array; copying is the identity here). -/
def getSessionTrace (st : ActionTraceState) (sessionId : String) : List TraceEntryM :=
  (alistGet st.entries sessionId).getD []

/-- Embedding of the private `percentile` helper: an empty sample list gives
0, otherwise index `ceil(length * p) - 1` clamped below by 0, with the
JavaScript out-of-range access answered by `?? 0`. -/
def percentile (sorted : List Nat) (p : ℚ) : Nat :=
  if sorted.length = 0 then 0
  else
    let idx : Int := Int.ceil ((sorted.length : ℚ) * p) - 1
    sorted.getD (max 0 idx).toNat 0

/-- Embedding of `TraceStats` (`actionsByOutcome` flattened into its two
fields). -/
structure TraceStatsM where
  actionsTotal : Int
  actionsByType : List (String × Int)
  outcomeOkCount : Int
  outcomeFailedCount : Int
  retriesTotal : Int
  sessionsTotal : Nat
  durationP50Ms : Nat
  durationP95Ms : Nat
deriving Repr

/-- Embedding of `ActionTrace.stats`: sort the duration samples ascending
and report the aggregates and the 50th/95th percentile durations. -/
def stats (st : ActionTraceState) : TraceStatsM :=
  let sorted := (st.allDurations.map (fun s => s.durationMs)).mergeSort (· ≤ ·)
  { actionsTotal := st.outcomeOk + st.outcomeFailed,
    actionsByType := st.actionCounts,
    outcomeOkCount := st.outcomeOk,
    outcomeFailedCount := st.outcomeFailed,
    retriesTotal := st.totalRetries,
    sessionsTotal := st.entries.length,
    durationP50Ms := percentile sorted ((1 : ℚ) / 2),
    durationP95Ms := percentile sorted ((19 : ℚ) / 20) }

/-- Sum of a per-entry contribution over every retained entry of every
session. -/
def sumOver (entries : List (String × List TraceEntryM)) (f : TraceEntryM → Int) : Int :=
  (entries.map (fun p => (p.2.map f).sum)).sum

/-- Contribution of an entry to the `ok` outcome counter. -/
def okInd (e : TraceEntryM) : Int := if e.ok then 1 else 0

/-- Contribution of an entry to the `failed` outcome counter. -/
def failedInd (e : TraceEntryM) : Int := if e.ok then 0 else 1

/-- Contribution of an entry to the retries total. -/
def retriesOf (e : TraceEntryM) : Int := (e.retries : Int)

/-- Contribution of an entry to the count of action `a`. -/
def actionInd (a : String) (e : TraceEntryM) : Int := if e.action = a then 1 else 0

/-! ## extractStructured (src/actions/resilience.ts) -/

/-- Embedding of `ItemProvenance`. -/
structure ItemProvenance where
  index : Nat
  tagName : String
  id : String
  className : String
  strategy : String
deriving DecidableEq, Repr

/-- Embedding of `ExtractionResult`. -/
structure ExtractionResult (T : Type) where
  data : List T
  provenance : List ItemProvenance
deriving Repr

/-- The iteration of `extractStructured` over the matched elements: for item
`i` the element evaluation, field mapping and schema coercion produce
`itemAt i` and `buildProvenance` produces `provAt i` (both deterministic per
index); `check` is the external TypeBox `Value.Check` validator.  A valid
item is appended to `data` and `provenance` together, an invalid one to
neither. -/
def extractLoop {T : Type} (check : T → Bool) (itemAt : Nat → T)
    (provAt : Nat → ItemProvenance) (itemCount : Nat) : ExtractionResult T :=
  (List.range itemCount).foldl
    (fun acc i =>
      if check (itemAt i) then
        { data := acc.data ++ [itemAt i],
          provenance := acc.provenance ++ [provAt i] }
      else acc)
    { data := [], provenance := [] }

/-- The body of `extractStructured`: iterate
`itemCount = min(count, opts.limit ?? count)` items and keep exactly the
schema-valid ones. -/
def extractStructured {T : Type} (check : T → Bool) (itemAt : Nat → T)
    (provAt : Nat → ItemProvenance) (count : Nat) (limit : Option Nat) :
    ExtractionResult T :=
  extractLoop check itemAt provAt (min count (limit.getD count))

/-! ## Handle registry (HandleRegistry) -/

/-- Embedding of `ElementHandle`.  `selector` keeps the registered chain; a
single registered strategy is the one-element chain. -/
structure ElementHandle where
  handleId : String
  selector : List SelectorStrategy
  lastStrategy : SelectorStrategy
  remapCount : Nat
deriving DecidableEq, Repr

/-- Embedding of `HandleResolution` (the locator lives inside
`resolution`). -/
structure HandleResolution where
  handle : ElementHandle
  resolution : SelectorResolution
  remapped : Bool
deriving DecidableEq, Repr

/-- `new StaleElementError(message)` with the default hint. -/
def staleElementError (message : String) : ResolveError :=
  { code := "STALE_ELEMENT", message,
    recoveryHint :=
      "Re-resolve the element handle — the DOM has changed since it was captured." }

/-- The registry's `_handles` map. -/
abbrev HandleMap : Type := List (String × ElementHandle)

/-- Embedding of `_buildPrioritizedStrategies`: the last winning strategy
first, then the original strategies without its duplicates.  The source
compares `JSON.stringify` serialisations; `JSON.stringify` (which escapes
strings) is injective on these literal object shapes, so the comparison is
modelled as structural equality. -/
def buildPrioritizedStrategies (h : ElementHandle) : List SelectorStrategy :=
  h.lastStrategy :: h.selector.filter (fun s => s ≠ h.lastStrategy)

/-- The `remapped` test of `HandleRegistry.resolve`:
`resolution.strategy.type !== handle.lastStrategy.type ||
JSON.stringify(resolution.strategy) !== JSON.stringify(handle.lastStrategy)`,
with stringify comparison modelled as structural comparison as above. -/
def remappedCheck (winner stored : SelectorStrategy) : Bool :=
  (strategyType winner != strategyType stored) || (winner != stored)

/-- Embedding of `HandleRegistry.resolve`: look the handle up (a missing id
throws `StaleElementError`), resolve the prioritized chain with wait state
`attached`, and when a different strategy wins store it on the handle and
increment `remapCount` (an in-place mutation, modelled by returning the
updated map). -/
def handleResolve (reg : HandleMap) (env : WaitEnv) (handleId : String)
    (timeoutMs now : Nat) : Except ResolveError (HandleResolution × HandleMap) :=
  match alistGet reg handleId with
  | none => .error (staleElementError ("handle not found: " ++ handleId))
  | some h =>
    match resolveWithConfidence env (Selector.chain (buildPrioritizedStrategies h))
        SelectorWaitState.attached timeoutMs now with
    | .error e => .error e
    | .ok r =>
      let remapped := remappedCheck r.strategy h.lastStrategy
      let h' :=
        if remapped then
          { h with lastStrategy := r.strategy, remapCount := h.remapCount + 1 }
        else h
      let reg' := if remapped then alistSet reg handleId h' else reg
      .ok ({ handle := h', resolution := r, remapped := remapped }, reg')

/-- Registry used to witness the remap theorem: one handle registered
against the chain `[css "#a", css "#b"]` whose last winning strategy is
`css "#b"`. -/
def c5Handle : ElementHandle :=
  { handleId := "h1",
    selector := [SelectorStrategy.css "#a", SelectorStrategy.css "#b"],
    lastStrategy := SelectorStrategy.css "#b", remapCount := 0 }

/-- Environment used to witness the remap theorem: `css "#b"` no longer
matches (its wait fails after 10 ms), `css "#a"` attaches after 5 ms. -/
def c5Env : WaitEnv :=
  { waitFor := fun _ strategy _ _ =>
      if strategy = SelectorStrategy.css "#b" then (false, 10) else (true, 5) }

/-- The handle after the witnessed remap: `css "#a"` stored, count bumped. -/
def c5HandleAfter : ElementHandle :=
  { handleId := "h1",
    selector := [SelectorStrategy.css "#a", SelectorStrategy.css "#b"],
    lastStrategy := SelectorStrategy.css "#a", remapCount := 1 }

/-- The resolution returned in the witnessed remap. -/
def c5Res : HandleResolution :=
  { handle := c5HandleAfter,
    resolution :=
      { strategy := SelectorStrategy.css "#a", strategyIndex := 1,
        resolutionMs := 15, chainLength := 2 },
    remapped := true }

/-- The bookkeeping invariant of an `ActionTrace`: session keys and action
keys are unique, every per-session list respects the cap, and each aggregate
equals the sum of the contributions of exactly the retained entries. -/
def TraceInvariant (st : ActionTraceState) : Prop :=
  (st.entries.map Prod.fst).Nodup ∧
  (st.actionCounts.map Prod.fst).Nodup ∧
  1 ≤ st.maxEntriesPerSession ∧
  (∀ sid, (getSessionTrace st sid).length ≤ st.maxEntriesPerSession) ∧
  st.outcomeOk = sumOver st.entries okInd ∧
  st.outcomeFailed = sumOver st.entries failedInd ∧
  st.totalRetries = sumOver st.entries retriesOf ∧
  (∀ a, (alistGet st.actionCounts a).getD 0 = sumOver st.entries (actionInd a))

end Claw

namespace Claw

/-! ## Theorems -/

theorem resolveLoop_sound (env : WaitEnv) (state : SelectorWaitState)
    (deadline start : Nat) :
    ∀ (l : List SelectorStrategy) (i now len : Nat) (r : SelectorResolution),
      resolveLoop env state deadline start l i now len = some r →
      r.chainLength = len ∧
      i ≤ r.strategyIndex ∧
      r.strategyIndex - i < l.length ∧
      l.get? (r.strategyIndex - i) = some r.strategy ∧
      triedAndFailedBefore env state deadline l now (r.strategyIndex - i) ∧
      (clockAfter env state deadline l now (r.strategyIndex - i) < deadline ∧
       (env.waitFor (clockAfter env state deadline l now (r.strategyIndex - i))
          r.strategy state
          (min (deadline - clockAfter env state deadline l now (r.strategyIndex - i))
            2000)).1 = true) ∧
      (start ≤ now → 0 ≤ r.resolutionMs) := by
  intro l
  induction l with
  | nil => intro i now len r h; simp [resolveLoop] at h
  | cons s rest ih =>
    intro i now len r h
    unfold resolveLoop at h
    split at h
    · exact absurd h (by simp)
    · rename_i hlt
      cases hw : env.waitFor now s state (min (deadline - now) 2000) with
      | mk success elapsed =>
        simp only [hw] at h
        cases success with
        | true =>
          simp only [Option.some.injEq] at h
          subst h
          refine ⟨rfl, le_refl _, ?_, ?_, ?_, ?_, ?_⟩
          · simp
          · simp
          · simp [triedAndFailedBefore]
          · constructor
            · simpa [clockAfter] using Nat.lt_of_not_le hlt
            · simp [clockAfter, hw]
          · intro hs
            simp only
            omega
        | false =>
          have h' := ih (i + 1) (now + elapsed) len r h
          obtain ⟨hlen, hle, hbound, hget, htried, hwin, hres⟩ := h'
          have hi1 : i + 1 ≤ r.strategyIndex := hle
          have hsub : r.strategyIndex - i = (r.strategyIndex - (i + 1)) + 1 := by omega
          refine ⟨hlen, by omega, ?_, ?_, ?_, ?_, ?_⟩
          · simp only [List.length_cons]; omega
          · rw [hsub]; simpa using hget
          · rw [hsub]
            simp only [triedAndFailedBefore, hw]
            exact ⟨Nat.lt_of_not_le hlt, trivial, htried⟩
          · rw [hsub]
            simp only [clockAfter, hw]
            exact hwin
          · intro hs
            exact hres (by omega)

/-- C3: for a strategy-chain selector with wait state `visible` or
`attached`, `resolveWithConfidence` probes the strategies left to right with
each wait capped at `min(remaining budget, 2000 ms)`, skipping strategies
whose wait fails while budget remains; when it succeeds it returns a
`SelectorResolution` naming the winning strategy at its chain index (so
`strategyIndex < chainLength`) with `resolutionMs ≥ 0`, and every earlier
strategy in the chain was tried at the capped wait and failed. -/
theorem resolveWithConfidence_chain_sound (env : WaitEnv)
    (l : List SelectorStrategy) (state : SelectorWaitState)
    (timeoutMs now0 : Nat) (r : SelectorResolution)
    (hstate : state = SelectorWaitState.visible ∨ state = SelectorWaitState.attached)
    (h : resolveWithConfidence env (Selector.chain l) state timeoutMs now0 = .ok r) :
    r.chainLength = l.length ∧
    r.strategyIndex < r.chainLength ∧
    l.get? r.strategyIndex = some r.strategy ∧
    0 ≤ r.resolutionMs ∧
    triedAndFailedBefore env state (now0 + timeoutMs) l now0 r.strategyIndex ∧
    (clockAfter env state (now0 + timeoutMs) l now0 r.strategyIndex < now0 + timeoutMs ∧
     (env.waitFor (clockAfter env state (now0 + timeoutMs) l now0 r.strategyIndex)
        r.strategy state
        (min (now0 + timeoutMs - clockAfter env state (now0 + timeoutMs) l now0 r.strategyIndex)
          2000)).1 = true) := by
  simp only [resolveWithConfidence] at h
  split at h
  · rename_i hempty
    exact absurd h (by simp)
  · rename_i hne
    split at h
    · rename_i hhid
      rcases hstate with hs | hs <;> rcases hhid with hh | hh <;> simp [hs] at hh
    · rename_i hvis
      cases hloop : resolveLoop env state (now0 + timeoutMs) now0 l 0 now0 l.length with
      | none => rw [hloop] at h; exact absurd h (by simp)
      | some r' =>
        rw [hloop] at h
        simp only [Except.ok.injEq] at h
        subst h
        have hmain := resolveLoop_sound env state (now0 + timeoutMs) now0 l 0 now0
          l.length r' hloop
        obtain ⟨hlen, _, hbound, hget, htried, hwin, hres⟩ := hmain
        simp only [Nat.sub_zero] at hbound hget htried hwin
        exact ⟨hlen, by omega, hget, hres (le_refl _), htried, hwin⟩

theorem resolveWithConfidence_chain_sound_witness :
    resolveWithConfidence witnessEnv
        (Selector.chain [SelectorStrategy.css "#missing", SelectorStrategy.testid "save"])
        SelectorWaitState.visible 1000 0 =
      .ok { strategy := SelectorStrategy.testid "save", strategyIndex := 1,
            resolutionMs := 305, chainLength := 2 } ∧
    ((1 : Nat) < 2 ∧
     [SelectorStrategy.css "#missing", SelectorStrategy.testid "save"].get? 1 =
       some (SelectorStrategy.testid "save")) := by
  refine ⟨by rfl, ?_⟩
  have := resolveWithConfidence_chain_sound witnessEnv
    [SelectorStrategy.css "#missing", SelectorStrategy.testid "save"]
    SelectorWaitState.visible 1000 0
    { strategy := SelectorStrategy.testid "save", strategyIndex := 1,
      resolutionMs := 305, chainLength := 2 }
    (Or.inl rfl) (by rfl)
  exact ⟨this.2.1, this.2.2.1⟩

/-- C4: resolving an empty strategy chain fails with `TargetNotFoundError`
(code `TARGET_NOT_FOUND`) for every wait state and every time budget. -/
theorem resolveWithConfidence_empty_chain (env : WaitEnv)
    (state : SelectorWaitState) (timeoutMs now0 : Nat) :
    resolveWithConfidence env (Selector.chain []) state timeoutMs now0 =
      .error (targetNotFoundError "empty selector strategy array") ∧
    (targetNotFoundError "empty selector strategy array").code = "TARGET_NOT_FOUND" :=
  ⟨rfl, rfl⟩

theorem rotateStrategies_perm {α : Type} (l : List α) :
    (rotateStrategies l).Perm l := by
  unfold rotateStrategies
  split
  · exact List.Perm.refl l
  · match l with
    | [] => exact List.Perm.refl []
    | first :: rest =>
      simp [@List.perm_append_comm _ rest [first]]

theorem rotateStrategies_length {α : Type} (l : List α) :
    (rotateStrategies l).length = l.length :=
  (rotateStrategies_perm l).length_eq

theorem handleRetryError_perm {α : Type} (err : ErrVal) (l : List α) :
    (handleRetryError err l).Perm l := by
  unfold handleRetryError
  split
  · exact rotateStrategies_perm l
  · exact List.Perm.refl l

theorem rotate_iterate_perm {α : Type} (n : Nat) (l : List α) :
    ((rotateStrategies)^[n] l).Perm l := by
  induction n generalizing l with
  | zero => simp
  | succ n ih =>
    rw [Function.iterate_succ_apply]
    exact (ih (rotateStrategies l)).trans (rotateStrategies_perm l)

theorem retryErrors_fold_perm {α : Type} (errs : List ErrVal) (l : List α) :
    (errs.foldl (fun acc e => handleRetryError e acc) l).Perm l := by
  induction errs generalizing l with
  | nil => exact List.Perm.refl l
  | cons e rest ih =>
    exact (ih (handleRetryError e l)).trans (handleRetryError_perm e l)

/-- C9: `rotateStrategies` moves the head of an array of length greater than
one to the tail and leaves shorter arrays unchanged; the multiset of
strategies and the array length are preserved by the rotation, by any number
of iterated rotations, and by any sequence of `handleRetryError` calls
(which rotate exactly on `TargetNotFoundError`). -/
theorem rotateStrategies_is_permutation :
    (rotateStrategies ([] : List SelectorStrategy) = []) ∧
    (∀ a : SelectorStrategy, rotateStrategies [a] = [a]) ∧
    (∀ (a b : SelectorStrategy) (t : List SelectorStrategy),
      rotateStrategies (a :: b :: t) = (b :: t) ++ [a]) ∧
    (∀ (n : Nat) (l : List SelectorStrategy),
      (((rotateStrategies)^[n] l : List SelectorStrategy) : Multiset SelectorStrategy) =
        (l : Multiset SelectorStrategy) ∧
      ((rotateStrategies)^[n] l).length = l.length) ∧
    (∀ (errs : List ErrVal) (l : List SelectorStrategy),
      ((errs.foldl (fun acc e => handleRetryError e acc) l : List SelectorStrategy) :
          Multiset SelectorStrategy) =
        (l : Multiset SelectorStrategy)) := by
  refine ⟨rfl, fun a => rfl, fun a b t => ?_, fun n l => ?_, fun errs l => ?_⟩
  · show rotateStrategies (a :: b :: t) = (b :: t) ++ [a]
    unfold rotateStrategies
    simp
  · exact ⟨Multiset.coe_eq_coe.mpr (rotate_iterate_perm n l),
      (rotate_iterate_perm n l).length_eq⟩
  · exact Multiset.coe_eq_coe.mpr (retryErrors_fold_perm errs l)

/-- C1 (divergence at the failing input): in the scenario of the repository's
own integration test (`retries: 1`; attempt 0 navigates away and throws, so
the navigation guard fires on attempt 1, the first retry), `executeAction`
does abort with `structuredError.code == "NAVIGATION_INTERRUPTED"`, but the
returned result reports `retries == 1` — the configured maximum — where the
claim, the spec and the test demand the number of attempts actually
performed, i.e. `retries == 0`. -/
theorem executeAction_navGuard_reports_max_retries :
    (executeActionM navGuardTestEnv (some 1)).ok = false ∧
    (executeActionM navGuardTestEnv (some 1)).structuredError =
      some { code := "NAVIGATION_INTERRUPTED",
             message :=
               "page navigated from about:blank to data:text/html,new page during retry",
             recoveryHint :=
               "The page navigated away during the action. Wait for navigation to settle before retrying." } ∧
    (executeActionM navGuardTestEnv (some 1)).retries = 1 ∧
    (executeActionM navGuardTestEnv (some 1)).retries ≠ 0 :=
  ⟨rfl, rfl, rfl, by decide⟩

theorem poolGet_none_of_not_mem (pool : PoolSessions) (key : String)
    (h : key ∉ pool.map Prod.fst) : poolGet pool key = none := by
  induction pool with
  | nil => rfl
  | cons p rest ih =>
    obtain ⟨k, v⟩ := p
    simp only [List.map_cons, List.mem_cons, not_or] at h
    have hne : ¬ k = key := fun hk => h.1 hk.symm
    simp only [poolGet, if_neg hne]
    exact ih h.2

theorem poolGet_mem_of_some (pool : PoolSessions) (key : String) (v : BrowserSessionM)
    (h : poolGet pool key = some v) : key ∈ pool.map Prod.fst := by
  induction pool with
  | nil => simp [poolGet] at h
  | cons p rest ih =>
    obtain ⟨k, w⟩ := p
    simp only [poolGet] at h
    by_cases hk : k = key
    · simp [hk]
    · rw [if_neg hk] at h
      simp [ih h]

theorem poolDelete_keys_subset (pool : PoolSessions) (k key : String)
    (h : key ∈ (poolDelete pool k).map Prod.fst) : key ∈ pool.map Prod.fst := by
  induction pool with
  | nil => simp [poolDelete] at h
  | cons p rest ih =>
    obtain ⟨k', v⟩ := p
    simp only [poolDelete] at h
    by_cases hk : k' = k
    · rw [if_pos hk] at h
      simp [h]
    · rw [if_neg hk] at h
      simp only [List.map_cons, List.mem_cons] at h ⊢
      rcases h with h | h
      · exact Or.inl h
      · exact Or.inr (ih h)

theorem poolGet_delete_self (pool : PoolSessions) (k : String)
    (hnodup : (pool.map Prod.fst).Nodup) : poolGet (poolDelete pool k) k = none := by
  induction pool with
  | nil => rfl
  | cons p rest ih =>
    obtain ⟨k', v⟩ := p
    simp only [List.map_cons, List.nodup_cons] at hnodup
    simp only [poolDelete]
    by_cases hk : k' = k
    · rw [if_pos hk]
      subst hk
      exact poolGet_none_of_not_mem rest k' hnodup.1
    · rw [if_neg hk]
      simp only [poolGet, if_neg hk]
      exact ih hnodup.2

theorem poolGet_append_of_none (l1 l2 : PoolSessions) (key : String)
    (h : poolGet l1 key = none) : poolGet (l1 ++ l2) key = poolGet l2 key := by
  induction l1 with
  | nil => rfl
  | cons p rest ih =>
    obtain ⟨k, v⟩ := p
    simp only [poolGet] at h
    by_cases hk : k = key
    · rw [if_pos hk] at h
      exact absurd h (by simp)
    · rw [if_neg hk] at h
      simp only [List.cons_append, poolGet, if_neg hk]
      exact ih h

/-- C2 (counterexample): a pool tracks the unhealthy session under id
"sess-old"; auto-recovery constructs the replacement with the fresh nanoid
draw "sess-new" and inserts it under that NEW id, so `getSession` with the
old id returns nothing — contradicting the claim that the replacement is
re-inserted under the failed session's id. -/
theorem recoverUnhealthy_not_same_id :
    getSession
        (recoverUnhealthy
          [("sess-old", { id := "sess-old", profile := none, healthy := false })]
          false { id := "sess-old", profile := none, healthy := false } "sess-new" true)
        "sess-old" = none ∧
    getSession
        (recoverUnhealthy
          [("sess-old", { id := "sess-old", profile := none, healthy := false })]
          false { id := "sess-old", profile := none, healthy := false } "sess-new" true)
        "sess-new" = some { id := "sess-new", profile := none, healthy := true } :=
  ⟨rfl, rfl⟩

/-- C2 (amended): after auto-recovery of a tracked unhealthy session, the
replacement is inserted under its own freshly drawn session id, not the
failed session's id: `getSession` with the new id returns the replacement
(same profile, healthy) and `getSession` with the old id returns nothing. -/
theorem recoverUnhealthy_inserts_under_new_id (pool : PoolSessions)
    (failed s : BrowserSessionM) (freshId : String)
    (hnodup : (pool.map Prod.fst).Nodup)
    (htracked : poolGet pool failed.id = some s)
    (hfresh : freshId ∉ pool.map Prod.fst) :
    getSession (recoverUnhealthy pool false failed freshId true) freshId =
      some (mkBrowserSession freshId failed.profile) ∧
    getSession (recoverUnhealthy pool false failed freshId true) failed.id = none := by
  have hmem : failed.id ∈ pool.map Prod.fst := poolGet_mem_of_some pool failed.id s htracked
  have hne : freshId ≠ failed.id := fun h => hfresh (h ▸ hmem)
  have hrec : recoverUnhealthy pool false failed freshId true =
      poolDelete pool failed.id ++ [(freshId, mkBrowserSession freshId failed.profile)] := by
    unfold recoverUnhealthy
    rw [if_neg (by simp), if_neg (by simp [htracked])]
    simp [mkBrowserSession]
  constructor
  · rw [hrec]
    unfold getSession
    rw [poolGet_append_of_none _ _ _ (poolGet_none_of_not_mem _ _
      (fun hmem' => hfresh (poolDelete_keys_subset pool failed.id freshId hmem')))]
    simp [poolGet]
  · rw [hrec]
    unfold getSession
    rw [poolGet_append_of_none _ _ _ (poolGet_delete_self pool failed.id hnodup)]
    simp [poolGet, hne]

/-- C10: on a freshly constructed (empty) trace, `stats()` is total: it
returns `actionsTotal == 0` and both percentile durations equal to 0 for any
cap configuration, because `percentile` on an empty sorted sample list
returns 0 (for every probability). -/
theorem stats_empty_trace (capE capD : Option Nat) (p : ℚ) :
    (stats (actionTraceInit capE capD)).actionsTotal = 0 ∧
    (stats (actionTraceInit capE capD)).durationP50Ms = 0 ∧
    (stats (actionTraceInit capE capD)).durationP95Ms = 0 ∧
    percentile [] p = 0 := by
  refine ⟨rfl, ?_, ?_, rfl⟩ <;> simp [stats, actionTraceInit, percentile]

theorem alistGet_none_of_not_mem {β : Type} (l : List (String × β)) (key : String)
    (h : key ∉ l.map Prod.fst) : alistGet l key = none := by
  induction l with
  | nil => rfl
  | cons p rest ih =>
    obtain ⟨k, v⟩ := p
    simp only [List.map_cons, List.mem_cons, not_or] at h
    have hne : ¬ k = key := fun hk => h.1 hk.symm
    simp only [alistGet, if_neg hne]
    exact ih h.2

theorem alistGet_set_self {β : Type} (l : List (String × β)) (k : String) (v : β) :
    alistGet (alistSet l k v) k = some v := by
  induction l with
  | nil => simp [alistSet, alistGet]
  | cons p rest ih =>
    obtain ⟨k', w⟩ := p
    by_cases hk : k' = k
    · simp [alistSet, hk, alistGet]
    · simp [alistSet, hk, alistGet, ih]

theorem alistGet_set_other {β : Type} (l : List (String × β)) (k a : String) (v : β)
    (ha : a ≠ k) : alistGet (alistSet l k v) a = alistGet l a := by
  have hka : ¬ k = a := fun h => ha h.symm
  induction l with
  | nil => simp [alistSet, alistGet, hka]
  | cons p rest ih =>
    obtain ⟨k', w⟩ := p
    by_cases hk : k' = k
    · subst hk
      simp [alistSet, alistGet, hka]
    · simp [alistSet, hk, alistGet, ih]

theorem alistSet_mem_keys {β : Type} (l : List (String × β)) (k : String) (v : β)
    (a : String) :
    a ∈ (alistSet l k v).map Prod.fst ↔ a ∈ l.map Prod.fst ∨ a = k := by
  induction l with
  | nil => simp [alistSet, eq_comm]
  | cons p rest ih =>
    obtain ⟨k', w⟩ := p
    by_cases hk : k' = k
    · subst hk
      simp [alistSet]
      tauto
    · simp [alistSet, hk, ih]
      tauto

theorem alistSet_nodup {β : Type} (l : List (String × β)) (k : String) (v : β)
    (h : (l.map Prod.fst).Nodup) : ((alistSet l k v).map Prod.fst).Nodup := by
  induction l with
  | nil => simp [alistSet]
  | cons p rest ih =>
    obtain ⟨k', w⟩ := p
    simp only [List.map_cons, List.nodup_cons] at h
    by_cases hk : k' = k
    · subst hk
      have hset : alistSet ((k', w) :: rest) k' v = (k', v) :: rest := by
        simp [alistSet]
      rw [hset]
      simp only [List.map_cons, List.nodup_cons]
      exact h
    · simp only [alistSet, if_neg hk, List.map_cons, List.nodup_cons]
      refine ⟨?_, ih h.2⟩
      intro hmem
      rcases (alistSet_mem_keys rest k v k').mp hmem with hm | hm
      · exact h.1 hm
      · exact hk hm

theorem alistDelete_sublist {β : Type} (l : List (String × β)) (k : String) :
    (alistDelete l k).Sublist l := by
  induction l with
  | nil => simp [alistDelete]
  | cons p rest ih =>
    obtain ⟨k', w⟩ := p
    by_cases hk : k' = k
    · simp only [alistDelete, if_pos hk]
      exact (List.sublist_cons_self _ _)
    · simp only [alistDelete, if_neg hk]
      exact ih.cons₂ _

theorem alistDelete_nodup {β : Type} (l : List (String × β)) (k : String)
    (h : (l.map Prod.fst).Nodup) : ((alistDelete l k).map Prod.fst).Nodup :=
  h.sublist ((alistDelete_sublist l k).map Prod.fst)

theorem alistGet_delete_self {β : Type} (l : List (String × β)) (k : String)
    (h : (l.map Prod.fst).Nodup) : alistGet (alistDelete l k) k = none := by
  induction l with
  | nil => rfl
  | cons p rest ih =>
    obtain ⟨k', w⟩ := p
    simp only [List.map_cons, List.nodup_cons] at h
    by_cases hk : k' = k
    · simp only [alistDelete, if_pos hk]
      subst hk
      exact alistGet_none_of_not_mem rest k' h.1
    · simp only [alistDelete, if_neg hk, alistGet, if_neg hk]
      exact ih h.2

theorem alistGet_delete_other {β : Type} (l : List (String × β)) (k a : String)
    (ha : a ≠ k) : alistGet (alistDelete l k) a = alistGet l a := by
  induction l with
  | nil => rfl
  | cons p rest ih =>
    obtain ⟨k', w⟩ := p
    by_cases hk : k' = k
    · subst hk
      have : ¬ k' = a := fun h => ha h.symm
      simp [alistDelete, alistGet, this]
    · simp only [alistDelete, if_neg hk, alistGet]
      by_cases hka : k' = a
      · simp [hka]
      · simp [hka, ih]

theorem sumOver_set (l : List (String × List TraceEntryM)) (k : String)
    (v : List TraceEntryM) (f : TraceEntryM → Int) :
    sumOver (alistSet l k v) f =
      sumOver l f - (((alistGet l k).getD []).map f).sum + (v.map f).sum := by
  induction l with
  | nil => simp [alistSet, sumOver, alistGet]
  | cons p rest ih =>
    obtain ⟨k', w⟩ := p
    by_cases hk : k' = k
    · simp only [alistSet, if_pos hk, sumOver, List.map_cons, List.sum_cons,
        alistGet, Option.getD_some]
      ring
    · simp only [alistSet, if_neg hk, sumOver, List.map_cons, List.sum_cons,
        alistGet, if_neg hk]
      have := ih
      simp only [sumOver] at this
      rw [this]
      ring

theorem sum_map_nonneg (l : List TraceEntryM) (f : TraceEntryM → Int)
    (hf : ∀ e, 0 ≤ f e) : 0 ≤ (l.map f).sum := by
  induction l with
  | nil => simp
  | cons e rest ih =>
    simp only [List.map_cons, List.sum_cons]
    exact add_nonneg (hf e) ih

theorem sumOver_nonneg (entries : List (String × List TraceEntryM))
    (f : TraceEntryM → Int) (hf : ∀ e, 0 ≤ f e) : 0 ≤ sumOver entries f := by
  induction entries with
  | nil => simp [sumOver]
  | cons p rest ih =>
    simp only [sumOver, List.map_cons, List.sum_cons]
    exact add_nonneg (sum_map_nonneg p.2 f hf) (by simpa [sumOver] using ih)

theorem session_le_sumOver (entries : List (String × List TraceEntryM))
    (sid : String) (f : TraceEntryM → Int) (hf : ∀ e, 0 ≤ f e) :
    (((alistGet entries sid).getD []).map f).sum ≤ sumOver entries f := by
  induction entries with
  | nil => simp [alistGet, sumOver]
  | cons p rest ih =>
    obtain ⟨k, v⟩ := p
    simp only [alistGet, sumOver, List.map_cons, List.sum_cons]
    by_cases hk : k = sid
    · rw [if_pos hk]
      simp only [Option.getD_some]
      have : 0 ≤ sumOver rest f := sumOver_nonneg rest f hf
      simp only [sumOver] at this
      omega
    · rw [if_neg hk]
      have h1 : 0 ≤ (v.map f).sum := sum_map_nonneg v f hf
      have h2 := ih
      simp only [sumOver] at h2
      omega

theorem okInd_nonneg (e : TraceEntryM) : 0 ≤ okInd e := by
  unfold okInd; split <;> simp

theorem failedInd_nonneg (e : TraceEntryM) : 0 ≤ failedInd e := by
  unfold failedInd; split <;> simp

theorem retriesOf_nonneg (e : TraceEntryM) : 0 ≤ retriesOf e := by
  unfold retriesOf; positivity

theorem actionInd_nonneg (a : String) (e : TraceEntryM) : 0 ≤ actionInd a e := by
  unfold actionInd; split <;> simp

theorem adjustAggregate_entries (sign : Int) (e : TraceEntryM) (st : ActionTraceState) :
    (adjustAggregate sign e st).entries = st.entries ∧
    (adjustAggregate sign e st).maxEntriesPerSession = st.maxEntriesPerSession ∧
    (adjustAggregate sign e st).maxDurationSamples = st.maxDurationSamples ∧
    (adjustAggregate sign e st).allDurations = st.allDurations := by
  simp only [adjustAggregate]
  split <;> split <;> simp

theorem adjustAggregate_totalRetries (sign : Int) (e : TraceEntryM)
    (st : ActionTraceState) :
    (adjustAggregate sign e st).totalRetries = st.totalRetries + sign * retriesOf e := by
  simp only [adjustAggregate, retriesOf]
  split <;> split <;> simp

theorem adjustAggregate_outcomeOk (sign : Int) (e : TraceEntryM)
    (st : ActionTraceState) :
    (adjustAggregate sign e st).outcomeOk = st.outcomeOk + sign * okInd e := by
  simp only [adjustAggregate, okInd]
  split <;> rename_i h1 <;> split <;> rename_i h2 <;> simp [h2]

theorem adjustAggregate_outcomeFailed (sign : Int) (e : TraceEntryM)
    (st : ActionTraceState) :
    (adjustAggregate sign e st).outcomeFailed = st.outcomeFailed + sign * failedInd e := by
  simp only [adjustAggregate, failedInd]
  split <;> rename_i h1 <;> split <;> rename_i h2 <;> simp [h2]

theorem adjustAggregate_actionCounts (sign : Int) (e : TraceEntryM)
    (st : ActionTraceState) :
    (adjustAggregate sign e st).actionCounts =
      (if (alistGet st.actionCounts e.action).getD 0 + sign ≤ 0 then
        alistDelete st.actionCounts e.action
      else
        alistSet st.actionCounts e.action
          ((alistGet st.actionCounts e.action).getD 0 + sign)) := by
  simp only [adjustAggregate]
  split <;> rename_i h1 <;> split <;> rename_i h2 <;> simp_all

theorem adjustAggregate_counts (sign : Int) (e : TraceEntryM) (st : ActionTraceState)
    (a : String) (hnodup : (st.actionCounts.map Prod.fst).Nodup)
    (hpos : 0 ≤ (alistGet st.actionCounts e.action).getD 0 + sign) :
    (alistGet (adjustAggregate sign e st).actionCounts a).getD 0 =
      (alistGet st.actionCounts a).getD 0 + sign * actionInd a e := by
  rw [adjustAggregate_actionCounts]
  by_cases ha : a = e.action
  · subst ha
    have hone : actionInd e.action e = 1 := by simp [actionInd]
    split <;> rename_i hle
    · rw [alistGet_delete_self st.actionCounts e.action hnodup, hone]
      simp only [Option.getD_none]
      omega
    · rw [alistGet_set_self, hone]
      simp
  · have ha' : e.action ≠ a := fun h => ha h.symm
    split
    · rw [alistGet_delete_other st.actionCounts e.action a (fun h => ha h)]
      simp [actionInd, ha']
    · rw [alistGet_set_other st.actionCounts e.action a _ (fun h => ha h)]
      simp [actionInd, ha']

theorem adjustAggregate_counts_nodup (sign : Int) (e : TraceEntryM)
    (st : ActionTraceState) (hnodup : (st.actionCounts.map Prod.fst).Nodup) :
    ((adjustAggregate sign e st).actionCounts.map Prod.fst).Nodup := by
  rw [adjustAggregate_actionCounts]
  split
  · exact alistDelete_nodup _ _ hnodup
  · exact alistSet_nodup _ _ _ hnodup

theorem evictOne_fields (sid : String) (e : TraceEntryM) (st : ActionTraceState) :
    (evictOne sid e st).entries = st.entries ∧
    (evictOne sid e st).maxEntriesPerSession = st.maxEntriesPerSession ∧
    (evictOne sid e st).maxDurationSamples = st.maxDurationSamples ∧
    (evictOne sid e st).totalRetries = st.totalRetries - retriesOf e ∧
    (evictOne sid e st).outcomeOk = st.outcomeOk - okInd e ∧
    (evictOne sid e st).outcomeFailed = st.outcomeFailed - failedInd e ∧
    (evictOne sid e st).actionCounts = (adjustAggregate (-1) e st).actionCounts := by
  unfold evictOne
  set stD := { st with
      allDurations :=
        removeDuration sid e.timestamp e.durationMs st.allDurations } with hstD
  have h1 := adjustAggregate_entries (-1) e stD
  have h2 := adjustAggregate_totalRetries (-1) e stD
  have h3 := adjustAggregate_outcomeOk (-1) e stD
  have h4 := adjustAggregate_outcomeFailed (-1) e stD
  refine ⟨by rw [h1.1], by rw [h1.2.1], by rw [h1.2.2.1], by rw [h2]; ring,
    by rw [h3]; ring, by rw [h4]; ring, ?_⟩
  rw [adjustAggregate_actionCounts, adjustAggregate_actionCounts]

theorem evictFold_spec (sid : String) (removed : List TraceEntryM) :
    ∀ (st : ActionTraceState),
      (st.actionCounts.map Prod.fst).Nodup →
      (∀ a, (removed.map (actionInd a)).sum ≤ (alistGet st.actionCounts a).getD 0) →
      ((removed.foldl (fun s e => evictOne sid e s) st).entries = st.entries ∧
       (removed.foldl (fun s e => evictOne sid e s) st).maxEntriesPerSession =
         st.maxEntriesPerSession ∧
       (removed.foldl (fun s e => evictOne sid e s) st).maxDurationSamples =
         st.maxDurationSamples ∧
       (removed.foldl (fun s e => evictOne sid e s) st).totalRetries =
         st.totalRetries - (removed.map retriesOf).sum ∧
       (removed.foldl (fun s e => evictOne sid e s) st).outcomeOk =
         st.outcomeOk - (removed.map okInd).sum ∧
       (removed.foldl (fun s e => evictOne sid e s) st).outcomeFailed =
         st.outcomeFailed - (removed.map failedInd).sum ∧
       (∀ a, (alistGet (removed.foldl (fun s e => evictOne sid e s) st).actionCounts a).getD 0 =
         (alistGet st.actionCounts a).getD 0 - (removed.map (actionInd a)).sum) ∧
       ((removed.foldl (fun s e => evictOne sid e s) st).actionCounts.map Prod.fst).Nodup) := by
  induction removed with
  | nil =>
    intro st hnodup hge
    simp [hnodup]
  | cons e rest ih =>
    intro st hnodup hge
    have hrest_nonneg : ∀ a, 0 ≤ (rest.map (actionInd a)).sum := fun a =>
      sum_map_nonneg rest (actionInd a) (actionInd_nonneg a)
    have hpos : 0 ≤ (alistGet st.actionCounts e.action).getD 0 + (-1) := by
      have hthis := hge e.action
      simp only [List.map_cons, List.sum_cons] at hthis
      have hone : actionInd e.action e = 1 := by simp [actionInd]
      rw [hone] at hthis
      have h0 := hrest_nonneg e.action
      omega
    obtain ⟨hE, hME, hMD, hTR, hOK, hOF, hAC⟩ := evictOne_fields sid e st
    have hnodup1 : ((evictOne sid e st).actionCounts.map Prod.fst).Nodup := by
      rw [hAC]; exact adjustAggregate_counts_nodup (-1) e st hnodup
    have hcounts1 : ∀ a, (alistGet (evictOne sid e st).actionCounts a).getD 0 =
        (alistGet st.actionCounts a).getD 0 - actionInd a e := by
      intro a
      rw [hAC]
      have := adjustAggregate_counts (-1) e st a hnodup hpos
      rw [this]; ring
    have hge1 : ∀ a, (rest.map (actionInd a)).sum ≤
        (alistGet (evictOne sid e st).actionCounts a).getD 0 := by
      intro a
      rw [hcounts1 a]
      have := hge a
      simp only [List.map_cons, List.sum_cons] at this
      omega
    have hmain := ih (evictOne sid e st) hnodup1 hge1
    obtain ⟨i1, i2, i3, i4, i5, i6, i7, i8⟩ := hmain
    simp only [List.foldl_cons]
    refine ⟨by rw [i1, hE], by rw [i2, hME], by rw [i3, hMD], ?_, ?_, ?_, ?_, i8⟩
    · rw [i4, hTR]; simp only [List.map_cons, List.sum_cons]; ring
    · rw [i5, hOK]; simp only [List.map_cons, List.sum_cons]; ring
    · rw [i6, hOF]; simp only [List.map_cons, List.sum_cons]; ring
    · intro a
      rw [i7 a, hcounts1 a]
      simp only [List.map_cons, List.sum_cons]
      ring

theorem evictLoop_eq (maxE : Nat) (sid : String) (l : List TraceEntryM)
    (st : ActionTraceState) :
    evictLoop maxE sid st l =
      (l.drop (l.length - maxE),
       (l.take (l.length - maxE)).foldl (fun s e => evictOne sid e s) st) := by
  induction l generalizing st with
  | nil => simp [evictLoop]
  | cons e rest ih =>
    by_cases h : maxE < (e :: rest).length
    · simp only [evictLoop, if_pos h]
      rw [ih]
      have hsub : (e :: rest).length - maxE = (rest.length - maxE) + 1 := by
        simp only [List.length_cons] at h ⊢
        omega
      rw [hsub]
      simp
    · simp only [evictLoop, if_neg h]
      have hz : (e :: rest).length - maxE = 0 := by
        simp only [List.length_cons] at h ⊢
        omega
      rw [hz]
      simp

theorem record_proj (st : ActionTraceState) (sid : String) (e : TraceEntryM) :
    (record st sid e).entries =
      alistSet (evictLoop st.maxEntriesPerSession sid st
          ((alistGet st.entries sid).getD [] ++ [e])).2.entries sid
        (evictLoop st.maxEntriesPerSession sid st
          ((alistGet st.entries sid).getD [] ++ [e])).1 ∧
    (record st sid e).totalRetries =
      (evictLoop st.maxEntriesPerSession sid st
        ((alistGet st.entries sid).getD [] ++ [e])).2.totalRetries + retriesOf e ∧
    (record st sid e).outcomeOk =
      (evictLoop st.maxEntriesPerSession sid st
        ((alistGet st.entries sid).getD [] ++ [e])).2.outcomeOk + okInd e ∧
    (record st sid e).outcomeFailed =
      (evictLoop st.maxEntriesPerSession sid st
        ((alistGet st.entries sid).getD [] ++ [e])).2.outcomeFailed + failedInd e ∧
    (record st sid e).actionCounts =
      alistSet (evictLoop st.maxEntriesPerSession sid st
          ((alistGet st.entries sid).getD [] ++ [e])).2.actionCounts e.action
        ((alistGet (evictLoop st.maxEntriesPerSession sid st
          ((alistGet st.entries sid).getD [] ++ [e])).2.actionCounts e.action).getD 0 + 1) ∧
    (record st sid e).maxEntriesPerSession =
      (evictLoop st.maxEntriesPerSession sid st
        ((alistGet st.entries sid).getD [] ++ [e])).2.maxEntriesPerSession ∧
    (record st sid e).maxDurationSamples =
      (evictLoop st.maxEntriesPerSession sid st
        ((alistGet st.entries sid).getD [] ++ [e])).2.maxDurationSamples := by
  simp only [record, okInd, failedInd, retriesOf]
  by_cases hok : e.ok <;> simp [hok]

theorem evictFold_maxE (sid : String) (removed : List TraceEntryM) :
    ∀ st : ActionTraceState,
      ((removed.foldl (fun s e => evictOne sid e s) st).maxEntriesPerSession =
        st.maxEntriesPerSession) := by
  induction removed with
  | nil => intro st; rfl
  | cons e rest ih =>
    intro st
    rw [List.foldl_cons, ih]
    exact (evictOne_fields sid e st).2.1

theorem record_preserves (st : ActionTraceState) (sid : String) (e : TraceEntryM)
    (hinv : TraceInvariant st) : TraceInvariant (record st sid e) := by
  obtain ⟨hNE, hNC, hMax1, hCap, hOk, hFail, hRet, hCnt⟩ := hinv
  set old := (alistGet st.entries sid).getD [] with hold
  set pushed := old ++ [e] with hpushed
  set n := pushed.length - st.maxEntriesPerSession with hn
  set removedL := pushed.take n with hremoved
  set kept := pushed.drop n with hkeptdef
  have holdlen : old.length ≤ st.maxEntriesPerSession := hCap sid
  have hplen : pushed.length = old.length + 1 := by
    rw [hpushed]; simp
  have hnle : n ≤ old.length := by
    rw [hn, hplen]; omega
  have hremold : removedL = old.take n := by
    rw [hremoved, hpushed, List.take_append_of_le_length hnle]
  have hsum_take : ∀ (f : TraceEntryM → Int), (∀ x, 0 ≤ f x) →
      (removedL.map f).sum ≤ (old.map f).sum := by
    intro f hf
    rw [hremold]
    conv_rhs => rw [← List.take_append_drop n old]
    rw [List.map_append, List.sum_append]
    have := sum_map_nonneg (old.drop n) f hf
    omega
  have hge : ∀ a, (removedL.map (actionInd a)).sum ≤
      (alistGet st.actionCounts a).getD 0 := by
    intro a
    have h1 := hsum_take (actionInd a) (actionInd_nonneg a)
    have h2 := session_le_sumOver st.entries sid (actionInd a) (actionInd_nonneg a)
    rw [hCnt a]
    rw [← hold] at h2
    omega
  have hev := evictLoop_eq st.maxEntriesPerSession sid pushed st
  rw [← hn, ← hremoved, ← hkeptdef] at hev
  obtain ⟨fE, fME, fMD, fTR, fOK, fOF, fCNT, fND⟩ := evictFold_spec sid removedL st hNC hge
  obtain ⟨pE, pTR, pOK, pOF, pAC, pME, pMD⟩ := record_proj st sid e
  rw [← hold, ← hpushed, hev] at pE pTR pOK pOF pAC pME pMD
  simp only at pE pTR pOK pOF pAC pME pMD
  -- the key splice identity relating contributions over old/new retained lists
  have hkey : ∀ f : TraceEntryM → Int,
      (old.map f).sum + f e = (removedL.map f).sum + (kept.map f).sum := by
    intro f
    have hsplit : removedL ++ kept = pushed := by
      rw [hremoved, hkeptdef]; exact List.take_append_drop n pushed
    have h1 : (pushed.map f).sum = (old.map f).sum + f e := by
      rw [hpushed]; simp
    have h2 : (pushed.map f).sum = (removedL.map f).sum + (kept.map f).sum := by
      rw [← hsplit]; simp
    omega
  have hkeptlen : kept.length ≤ st.maxEntriesPerSession := by
    rw [hkeptdef]
    simp only [List.length_drop]
    omega
  refine ⟨?_, ?_, ?_, ?_, ?_, ?_, ?_, ?_⟩
  · rw [pE, fE]
    exact alistSet_nodup _ _ _ hNE
  · rw [pAC]
    exact alistSet_nodup _ _ _ fND
  · rw [pME, fME]
    exact hMax1
  · intro s'
    unfold getSessionTrace
    rw [pE, fE, pME, fME]
    by_cases hs : s' = sid
    · subst hs
      rw [alistGet_set_self]
      simpa using hkeptlen
    · rw [alistGet_set_other _ _ _ _ hs]
      exact hCap s'
  · rw [pOK, fOK, pE, fE, sumOver_set, ← hold, hOk]
    have := hkey okInd
    omega
  · rw [pOF, fOF, pE, fE, sumOver_set, ← hold, hFail]
    have := hkey failedInd
    omega
  · rw [pTR, fTR, pE, fE, sumOver_set, ← hold, hRet]
    have := hkey retriesOf
    omega
  · intro a
    rw [pE, fE, sumOver_set, ← hold]
    rw [pAC]
    by_cases ha : a = e.action
    · subst ha
      rw [alistGet_set_self]
      simp only [Option.getD_some]
      rw [fCNT e.action, hCnt e.action]
      have h1 := hkey (actionInd e.action)
      have h2 : actionInd e.action e = 1 := by simp [actionInd]
      omega
    · rw [alistGet_set_other _ _ _ _ (fun h => ha h)]
      rw [fCNT a, hCnt a]
      have h1 := hkey (actionInd a)
      have h2 : actionInd a e = 0 := by simp [actionInd]; exact fun h => ha h.symm
      omega

theorem init_invariant (capE capD : Option Nat) :
    TraceInvariant (actionTraceInit capE capD) := by
  refine ⟨by simp [actionTraceInit], by simp [actionTraceInit],
    by simp [actionTraceInit], ?_, by simp [actionTraceInit, sumOver],
    by simp [actionTraceInit, sumOver], by simp [actionTraceInit, sumOver], ?_⟩
  · intro sid
    simp [actionTraceInit, getSessionTrace, alistGet]
  · intro a
    simp [actionTraceInit, sumOver, alistGet]

theorem foldl_record_invariant (ops : List (String × TraceEntryM)) :
    ∀ st : ActionTraceState, TraceInvariant st →
      TraceInvariant (ops.foldl (fun s op => record s op.1 op.2) st) := by
  induction ops with
  | nil => intro st h; exact h
  | cons op rest ih =>
    intro st h
    rw [List.foldl_cons]
    exact ih _ (record_preserves st op.1 op.2 h)

theorem foldl_record_maxE (ops : List (String × TraceEntryM)) :
    ∀ st : ActionTraceState,
      (ops.foldl (fun s op => record s op.1 op.2) st).maxEntriesPerSession =
        st.maxEntriesPerSession := by
  induction ops with
  | nil => intro st; rfl
  | cons op rest ih =>
    intro st
    rw [List.foldl_cons, ih]
    obtain ⟨_, _, _, _, _, pME, _⟩ := record_proj st op.1 op.2
    rw [pME, evictLoop_eq]
    exact evictFold_maxE op.1 _ st

/-- C6: for every cap configuration and every sequence of `record` calls
starting from a fresh trace, each session retains at most
`max 1 (configured cap)` entries, and every aggregate statistic — the
`ok`/`failed` outcome counters, the retries total and the per-action counts —
equals the sum of the contributions of exactly the retained entries, because
eviction subtracts the shifted entry's contribution. -/
theorem trace_cap_and_aggregates (capE capD : Option Nat)
    (ops : List (String × TraceEntryM)) :
    (∀ sid,
      (getSessionTrace
        (ops.foldl (fun s op => record s op.1 op.2) (actionTraceInit capE capD))
        sid).length ≤ max 1 (capE.getD 2000)) ∧
    (ops.foldl (fun s op => record s op.1 op.2) (actionTraceInit capE capD)).outcomeOk =
      sumOver (ops.foldl (fun s op => record s op.1 op.2)
        (actionTraceInit capE capD)).entries okInd ∧
    (ops.foldl (fun s op => record s op.1 op.2) (actionTraceInit capE capD)).outcomeFailed =
      sumOver (ops.foldl (fun s op => record s op.1 op.2)
        (actionTraceInit capE capD)).entries failedInd ∧
    (ops.foldl (fun s op => record s op.1 op.2) (actionTraceInit capE capD)).totalRetries =
      sumOver (ops.foldl (fun s op => record s op.1 op.2)
        (actionTraceInit capE capD)).entries retriesOf ∧
    (∀ a,
      (alistGet (ops.foldl (fun s op => record s op.1 op.2)
          (actionTraceInit capE capD)).actionCounts a).getD 0 =
        sumOver (ops.foldl (fun s op => record s op.1 op.2)
          (actionTraceInit capE capD)).entries (actionInd a)) := by
  have hinv := foldl_record_invariant ops (actionTraceInit capE capD)
    (init_invariant capE capD)
  obtain ⟨_, _, _, hCap, hOk, hFail, hRet, hCnt⟩ := hinv
  refine ⟨?_, hOk, hFail, hRet, hCnt⟩
  intro sid
  have hME := foldl_record_maxE ops (actionTraceInit capE capD)
  have : (actionTraceInit capE capD).maxEntriesPerSession = max 1 (capE.getD 2000) := rfl
  rw [← this, ← hME]
  exact hCap sid

theorem extractLoop_balanced_aux {T : Type} (check : T → Bool) (itemAt : Nat → T)
    (provAt : Nat → ItemProvenance) (l : List Nat) :
    ∀ acc : ExtractionResult T, acc.data.length = acc.provenance.length →
      ((l.foldl
        (fun acc i =>
          if check (itemAt i) then
            { data := acc.data ++ [itemAt i],
              provenance := acc.provenance ++ [provAt i] }
          else acc) acc : ExtractionResult T)).data.length =
      ((l.foldl
        (fun acc i =>
          if check (itemAt i) then
            { data := acc.data ++ [itemAt i],
              provenance := acc.provenance ++ [provAt i] }
          else acc) acc : ExtractionResult T)).provenance.length := by
  induction l with
  | nil => intro acc hacc; exact hacc
  | cons i rest ih =>
    intro acc hacc
    rw [List.foldl_cons]
    apply ih
    by_cases h : check (itemAt i)
    · simp [h, hacc]
    · simp [h, hacc]

/-- C8: every result of `extractStructured` pairs `data` and `provenance`
one to one — `data.length == provenance.length` — for every validator,
extraction pipeline, element count and limit, because an element is appended
to both lists together or to neither. -/
theorem extractStructured_balanced {T : Type} (check : T → Bool) (itemAt : Nat → T)
    (provAt : Nat → ItemProvenance) (count : Nat) (limit : Option Nat) :
    (extractStructured check itemAt provAt count limit).data.length =
      (extractStructured check itemAt provAt count limit).provenance.length := by
  unfold extractStructured extractLoop
  exact extractLoop_balanced_aux check itemAt provAt _ _ rfl

theorem remappedCheck_iff (w s : SelectorStrategy) :
    remappedCheck w s = true ↔ w ≠ s := by
  unfold remappedCheck
  constructor
  · intro h heq
    subst heq
    simp at h
  · intro h
    simp [bne_iff_ne, h]

/-- C5: whenever `HandleRegistry.resolve` succeeds for a registered handle,
a winning strategy that differs (by deep equality) from the stored
last-winning strategy is stored on the handle, `remapCount` grows by exactly
one and the caller sees `remapped == true`; when the stored strategy wins
again the handle is untouched, `remapCount` is unchanged and
`remapped == false`. -/
theorem handleResolve_remap (reg : HandleMap) (env : WaitEnv) (handleId : String)
    (timeoutMs now : Nat) (h : ElementHandle) (res : HandleResolution)
    (reg' : HandleMap)
    (hlook : alistGet reg handleId = some h)
    (hok : handleResolve reg env handleId timeoutMs now = .ok (res, reg')) :
    (res.resolution.strategy ≠ h.lastStrategy →
      res.remapped = true ∧
      res.handle.lastStrategy = res.resolution.strategy ∧
      res.handle.remapCount = h.remapCount + 1 ∧
      alistGet reg' handleId = some res.handle) ∧
    (res.resolution.strategy = h.lastStrategy →
      res.remapped = false ∧
      res.handle = h ∧
      res.handle.remapCount = h.remapCount ∧
      reg' = reg) := by
  simp only [handleResolve, hlook] at hok
  cases hres : resolveWithConfidence env (Selector.chain (buildPrioritizedStrategies h))
      SelectorWaitState.attached timeoutMs now with
  | error e =>
    rw [hres] at hok
    exact absurd hok (by simp)
  | ok r =>
    rw [hres] at hok
    simp only [Except.ok.injEq, Prod.mk.injEq] at hok
    obtain ⟨hres_eq, hreg_eq⟩ := hok
    by_cases hne : r.strategy = h.lastStrategy
    · have hrc : remappedCheck r.strategy h.lastStrategy = false := by
        rw [← Bool.not_eq_true]
        intro hc
        exact (remappedCheck_iff r.strategy h.lastStrategy).mp hc hne
      rw [hrc] at hres_eq hreg_eq
      simp only [if_neg (by simp : ¬ (false = true))] at hres_eq hreg_eq
      subst hres_eq
      constructor
      · intro hcontra
        simp only at hcontra
        exact absurd hne hcontra
      · intro _
        exact ⟨rfl, rfl, rfl, hreg_eq.symm⟩
    · have hrc : remappedCheck r.strategy h.lastStrategy = true :=
        (remappedCheck_iff r.strategy h.lastStrategy).mpr hne
      rw [hrc] at hres_eq hreg_eq
      simp only [if_pos rfl] at hres_eq hreg_eq
      subst hres_eq
      constructor
      · intro _
        refine ⟨rfl, rfl, rfl, ?_⟩
        rw [← hreg_eq]
        exact alistGet_set_self reg handleId _
      · intro hcontra
        simp only at hcontra
        exact absurd hcontra hne

/-- Closed instance of the remap theorem: the stored strategy `css "#b"`
stops matching, `css "#a"` wins, and the handle is remapped with
`remapCount` going from 0 to 1. -/
theorem handleResolve_remap_witness :
    c5Res.remapped = true ∧
    c5Res.handle.lastStrategy = c5Res.resolution.strategy ∧
    c5Res.handle.remapCount = c5Handle.remapCount + 1 ∧
    alistGet [("h1", c5HandleAfter)] "h1" = some c5Res.handle :=
  (handleResolve_remap [("h1", c5Handle)] c5Env "h1" 1000 0 c5Handle c5Res
    [("h1", c5HandleAfter)] rfl (by rfl)).1 (by decide)

mutual

theorem sanitizeValue_redacted (cfg : ActionLogCfg)
    (hcfg : cfg.redactSensitiveInput = true) :
    ∀ (v : JsVal) (key : String) (pt : Bool),
      SensitiveRedacted cfg (sanitizeValue cfg v key pt)
  | JsVal.vstr s, key, pt => by
      simp only [sanitizeValue]
      split
      · simp [SensitiveRedacted]
      · split <;> simp [SensitiveRedacted]
  | JsVal.vnum n, key, pt => by
      simp only [sanitizeValue]
      split <;> simp [SensitiveRedacted]
  | JsVal.vbool b, key, pt => by
      simp only [sanitizeValue]
      split <;> simp [SensitiveRedacted]
  | JsVal.vnull, key, pt => by
      simp only [sanitizeValue]
      split <;> simp [SensitiveRedacted]
  | JsVal.vopaque t, key, pt => by
      simp only [sanitizeValue]
      split <;> simp [SensitiveRedacted]
  | JsVal.varr elems, key, pt => by
      simp only [sanitizeValue]
      split
      · simp [SensitiveRedacted]
      · simp only [SensitiveRedacted]
        exact sanitizeElems_redacted cfg hcfg elems key
          ((pt || isTypedTextKey key) || pt)
  | JsVal.vobj fields, key, pt => by
      simp only [sanitizeValue]
      split
      · simp [SensitiveRedacted]
      · simp only [SensitiveRedacted]
        exact sanitizeFields_redacted cfg hcfg fields
          ((pt || isTypedTextKey key) || pt)

theorem sanitizeElems_redacted (cfg : ActionLogCfg)
    (hcfg : cfg.redactSensitiveInput = true) :
    ∀ (elems : List JsVal) (key : String) (tt : Bool),
      SensitiveRedactedElems cfg (sanitizeElems cfg elems key tt)
  | [], key, tt => by simp [sanitizeElems, SensitiveRedactedElems]
  | v :: rest, key, tt => by
      simp only [sanitizeElems, SensitiveRedactedElems]
      exact ⟨sanitizeValue_redacted cfg hcfg v key tt,
        sanitizeElems_redacted cfg hcfg rest key tt⟩

theorem sanitizeFields_redacted (cfg : ActionLogCfg)
    (hcfg : cfg.redactSensitiveInput = true) :
    ∀ (fields : List (String × JsVal)) (pt : Bool),
      SensitiveRedactedFields cfg (sanitizeFields cfg fields pt)
  | [], pt => by simp [sanitizeFields, SensitiveRedactedFields]
  | (k, v) :: rest, pt => by
      simp only [sanitizeFields, SensitiveRedactedFields]
      refine ⟨?_, sanitizeValue_redacted cfg hcfg v k pt,
        sanitizeFields_redacted cfg hcfg rest pt⟩
      intro hsens
      have hcond : (cfg.redactSensitiveInput && isSensitiveKey cfg k) = true := by
        rw [hcfg, hsens]
        rfl
      cases v <;> simp [sanitizeValue, hcond]

end

mutual

theorem sanitizeValue_passthrough (cfg : ActionLogCfg)
    (hrt : cfg.redactTypedText = false) :
    ∀ (v : JsVal) (key : String) (pt : Bool),
      isSensitiveKey cfg key = false → NoSensitiveKeys cfg v →
      sanitizeValue cfg v key pt = v
  | JsVal.vstr s, key, pt, hk, _ => by
      simp [sanitizeValue, hk, hrt]
  | JsVal.vnum n, key, pt, hk, _ => by
      simp [sanitizeValue, hk]
  | JsVal.vbool b, key, pt, hk, _ => by
      simp [sanitizeValue, hk]
  | JsVal.vnull, key, pt, hk, _ => by
      simp [sanitizeValue, hk]
  | JsVal.vopaque t, key, pt, hk, _ => by
      simp [sanitizeValue, hk]
  | JsVal.varr elems, key, pt, hk, hv => by
      simp only [NoSensitiveKeys] at hv
      have hcond : (cfg.redactSensitiveInput && isSensitiveKey cfg key) = false := by
        rw [hk]
        simp
      simp only [sanitizeValue, hcond, Bool.false_eq_true, if_false]
      rw [sanitizeElems_passthrough cfg hrt elems key _ hk hv]
  | JsVal.vobj fields, key, pt, hk, hv => by
      simp only [NoSensitiveKeys] at hv
      have hcond : (cfg.redactSensitiveInput && isSensitiveKey cfg key) = false := by
        rw [hk]
        simp
      simp only [sanitizeValue, hcond, Bool.false_eq_true, if_false]
      rw [sanitizeFields_passthrough cfg hrt fields _ hv]

theorem sanitizeElems_passthrough (cfg : ActionLogCfg)
    (hrt : cfg.redactTypedText = false) :
    ∀ (elems : List JsVal) (key : String) (tt : Bool),
      isSensitiveKey cfg key = false → NoSensitiveKeysElems cfg elems →
      sanitizeElems cfg elems key tt = elems
  | [], key, tt, _, _ => by simp [sanitizeElems]
  | v :: rest, key, tt, hk, hv => by
      simp only [NoSensitiveKeysElems] at hv
      simp only [sanitizeElems]
      rw [sanitizeValue_passthrough cfg hrt v key tt hk hv.1,
        sanitizeElems_passthrough cfg hrt rest key tt hk hv.2]

theorem sanitizeFields_passthrough (cfg : ActionLogCfg)
    (hrt : cfg.redactTypedText = false) :
    ∀ (fields : List (String × JsVal)) (pt : Bool),
      NoSensitiveKeysFields cfg fields →
      sanitizeFields cfg fields pt = fields
  | [], pt, _ => by simp [sanitizeFields]
  | (k, v) :: rest, pt, hv => by
      simp only [NoSensitiveKeysFields] at hv
      simp only [sanitizeFields]
      rw [sanitizeValue_passthrough cfg hrt v k pt hv.1 hv.2.1,
        sanitizeFields_passthrough cfg hrt rest pt hv.2.2]

end

/-- C7: for an action log with the default redaction configuration and any
configured additional sensitive keys, sanitising an input object before
persisting (a) leaves every sensitive key at every nesting depth — reached
through arrays and plain objects — holding the literal `"[REDACTED]"`, (b)
replaces the whole value of a sensitive key outright, (c) matches keys
case-insensitively (`"PassWord"` is sensitive), and (d) passes a value under
a non-sensitive key through unchanged whenever it contains no sensitive key
at any depth. -/
theorem sanitizeInput_redacts (extraOpt : Option (List String))
    (input : List (String × JsVal)) :
    SensitiveRedactedFields (mkActionLogCfg none none extraOpt)
      (sanitizeInput (mkActionLogCfg none none extraOpt) input) ∧
    (∀ (v : JsVal) (key : String) (pt : Bool),
      isSensitiveKey (mkActionLogCfg none none extraOpt) key = true →
      sanitizeValue (mkActionLogCfg none none extraOpt) v key pt =
        JsVal.vstr "[REDACTED]") ∧
    isSensitiveKey (mkActionLogCfg none none extraOpt) "PassWord" = true ∧
    (∀ (v : JsVal) (key : String) (pt : Bool),
      isSensitiveKey (mkActionLogCfg none none extraOpt) key = false →
      NoSensitiveKeys (mkActionLogCfg none none extraOpt) v →
      sanitizeValue (mkActionLogCfg none none extraOpt) v key pt = v) := by
  refine ⟨?_, ?_, ?_, ?_⟩
  · exact sanitizeFields_redacted (mkActionLogCfg none none extraOpt) rfl input false
  · intro v key pt hk
    have hcfg : (mkActionLogCfg none none extraOpt).redactSensitiveInput = true := rfl
    cases v <;> simp [sanitizeValue, hk, hcfg]
  · have hlow : lowerStr "PassWord" = "password" := by decide
    cases extraOpt with
    | none => decide
    | some extra =>
      simp only [isSensitiveKey, mkActionLogCfg, Option.map_some', Option.getD_some,
        hlow]
      have hmem : "password" ∈
          (DEFAULT_SENSITIVE_KEYS ++ extra).map (fun k => lowerStr k) :=
        List.mem_map.mpr ⟨"password",
          List.mem_append_left _ (by decide), by decide⟩
      exact List.elem_eq_true_of_mem hmem
  · exact fun v key pt hk hv =>
      sanitizeValue_passthrough (mkActionLogCfg none none extraOpt) rfl v key pt hk hv

/-- Closed instance of the amended recovery theorem at a concrete pool. -/
theorem recoverUnhealthy_inserts_under_new_id_witness :
    getSession
        (recoverUnhealthy
          [("sess-old", { id := "sess-old", profile := none, healthy := false })]
          false { id := "sess-old", profile := none, healthy := false } "sess-new" true)
        "sess-new" = some (mkBrowserSession "sess-new" none) ∧
    getSession
        (recoverUnhealthy
          [("sess-old", { id := "sess-old", profile := none, healthy := false })]
          false { id := "sess-old", profile := none, healthy := false } "sess-new" true)
        "sess-old" = none :=
  recoverUnhealthy_inserts_under_new_id
    [("sess-old", { id := "sess-old", profile := none, healthy := false })]
    { id := "sess-old", profile := none, healthy := false }
    { id := "sess-old", profile := none, healthy := false }
    "sess-new" (by simp) rfl (by simp)

end Claw
